import Mathlib

/-!
Verification of the docmap-tools HTML-to-XML conversion pipeline
(docmaptools/convert.py) and docmap extraction (docmaptools/parse.py)
against the natural-language specification.

The tree model mirrors xml.etree.ElementTree: every element has a tag,
an ordered attribute mapping, optional leading text, an ordered child
list and optional tail text (the text following the element inside its
parent).
-/

namespace Docmaptools

/-- Shallow embedding of an ElementTree element: tag, ordered attributes,
leading text, ordered children, tail text. -/
inductive XmlNode where
  | elem (tag : String) (attrs : List (String × String)) (text : Option String)
      (children : List XmlNode) (tail : Option String)

namespace XmlNode

def tagOf : XmlNode → String
  | .elem t _ _ _ _ => t

def attrsOf : XmlNode → List (String × String)
  | .elem _ a _ _ _ => a

def textOf : XmlNode → Option String
  | .elem _ _ tx _ _ => tx

def childrenOf : XmlNode → List XmlNode
  | .elem _ _ _ ch _ => ch

def tailOf : XmlNode → Option String
  | .elem _ _ _ _ tl => tl

def withChildren : XmlNode → List XmlNode → XmlNode
  | .elem t a tx _ tl, ch => .elem t a tx ch tl

end XmlNode

/-- Ordered-dict update as in Python: overwrite the first binding of the key
in place, else append the binding at the end. Mirrors Element.set. -/
def setAttr : List (String × String) → String → String → List (String × String)
  | [], k, v => [(k, v)]
  | (k', v') :: rest, k, v =>
      if k' == k then (k, v) :: rest else (k', v') :: setAttr rest k v

/-- Remove the first binding of the key, as del on a dict key. -/
def delAttr : List (String × String) → String → List (String × String)
  | [], _ => []
  | (k', v') :: rest, k => if k' == k then rest else (k', v') :: delAttr rest k

/-- First binding of the key, as Element.get. -/
def lookupAttr (l : List (String × String)) (k : String) : Option String :=
  match l with
  | [] => none
  | (k', v') :: rest => if k' == k then some v' else lookupAttr rest k

/-- Attribute lookup on an element, as Element.get. -/
def getAttr (n : XmlNode) (k : String) : Option String :=
  lookupAttr n.attrsOf k

/-- Python list.insert: the index is clamped to the list length. -/
def pyInsert (i : Nat) (x : α) (l : List α) : List α :=
  l.take i ++ x :: l.drop i

/-- Python str.lstrip with no argument: drop leading whitespace. -/
def pyLstrip (s : String) : String :=
  ⟨s.data.dropWhile Char.isWhitespace⟩

/-- Remove the first child with the given tag, as Element.remove of
Element.find of that tag. -/
def removeFirstTag : List XmlNode → String → List XmlNode
  | [], _ => []
  | c :: rest, t => if c.tagOf == t then rest else c :: removeFirstTag rest t

/-- First element of the list with the given tag, as Element.find. -/
def findTag (l : List XmlNode) (t : String) : Option XmlNode :=
  l.find? (fun c => c.tagOf == t)

mutual

/-- Rename every element of the subtree whose tag is f to tag t.
One findall loop of convert.replace_tags restricted to a subtree. -/
def renameTagNode (f t : String) : XmlNode → XmlNode
  | .elem tg a tx ch tl =>
      .elem (if tg == f then t else tg) a tx (renameTagList f t ch) tl

def renameTagList (f t : String) : List XmlNode → List XmlNode
  | [] => []
  | c :: rest => renameTagNode f t c :: renameTagList f t rest

end

mutual

/-- The a-tag loop of convert.replace_tags on one subtree: rename a to
ext-link; when the href attribute holds a truthy value, set
ext-link-type to uri, copy href into the namespaced xlink href key and
delete href. -/
def aNode : XmlNode → XmlNode
  | .elem tg a tx ch tl =>
      if tg == "a" then
        match lookupAttr a "href" with
        | some v =>
            if v == "" then .elem "ext-link" a tx (aList ch) tl
            else .elem "ext-link"
              (delAttr (setAttr (setAttr a "ext-link-type" "uri")
                "\x7bhttp://www.w3.org/1999/xlink\x7dhref" v) "href")
              tx (aList ch) tl
        | none => .elem "ext-link" a tx (aList ch) tl
      else .elem tg a tx (aList ch) tl

def aList : List XmlNode → List XmlNode
  | [] => []
  | c :: rest => aNode c :: aList rest

end

/-- The text an element with an img child receives: a space-join of the
literal image placeholder and the lstripped previous text, keeping only
truthy strings. -/
def imgText : Option String → String
  | some s => if s == "" then "[image]" else "[image] " ++ pyLstrip s
  | none => "[image]"

mutual

/-- The img loop of convert.replace_tags on one subtree: every element with
an img child receives the placeholder text and loses its first img child.
The recursion into the children happens first; the loop never renames, so
checking and removing the first img child afterwards is the same tree. -/
def imgNode : XmlNode → XmlNode
  | .elem tg a tx ch tl =>
      let ch2 := imgList ch
      if ch2.any (fun c => c.tagOf == "img") then
        .elem tg a (some (imgText tx)) (removeFirstTag ch2 "img") tl
      else .elem tg a tx ch2 tl

def imgList : List XmlNode → List XmlNode
  | [] => []
  | c :: rest => imgNode c :: imgList rest

end

mutual

/-- The ol and ul loops of convert.replace_tags on one subtree: rename the
tag to list and set the list-type attribute. -/
def listNode (f lt : String) : XmlNode → XmlNode
  | .elem tg a tx ch tl =>
      if tg == f then .elem "list" (setAttr a "list-type" lt) tx (listList f lt ch) tl
      else .elem tg a tx (listList f lt ch) tl

def listList (f lt : String) : List XmlNode → List XmlNode
  | [] => []
  | c :: rest => listNode f lt c :: listList f lt rest

end

/-- convert.replace_tags: the seven findall loops in source order. The
rename loops match descendants of the root only; the img loop can also
give the root itself placeholder text, so it is applied at the root. -/
def replace_tags (root : XmlNode) : XmlNode :=
  let r1 := root.withChildren (renameTagList "em" "italic" root.childrenOf)
  let r2 := r1.withChildren (renameTagList "strong" "bold" r1.childrenOf)
  let r3 := r2.withChildren (aList r2.childrenOf)
  let r4 := imgNode r3
  let r5 := r4.withChildren (renameTagList "li" "list-item" r4.childrenOf)
  let r6 := r5.withChildren (listList "ol" "order" r5.childrenOf)
  r6.withChildren (listList "ul" "bullet" r6.childrenOf)

/-- blockquote_tags walks the top-level children left to right keeping the
previous surviving sibling; the pending previous sibling is emitted once it
can no longer receive merged blockquote children. -/
def bqGo : Option XmlNode → List XmlNode → List XmlNode
  | prev, [] => prev.toList
  | prev, e :: rest =>
    if e.tagOf == "blockquote" then
      match prev with
      | some p =>
          if p.tagOf == "disp-quote" then
            bqGo (some (p.withChildren (p.childrenOf ++ e.childrenOf))) rest
          else
            p :: bqGo (some (XmlNode.elem "disp-quote"
              (setAttr e.attrsOf "content-type" "editor-comment")
              e.textOf e.childrenOf e.tailOf)) rest
      | none =>
          bqGo (some (XmlNode.elem "disp-quote"
            (setAttr e.attrsOf "content-type" "editor-comment")
            e.textOf e.childrenOf e.tailOf)) rest
    else
      match prev with
      | some p => p :: bqGo (some e) rest
      | none => bqGo (some e) rest

/-- convert.blockquote_tags: convert top-level blockquote elements into
disp-quote elements, merging the element children of a blockquote into the
previous sibling when that sibling is a disp-quote. -/
def blockquote_tags (root : XmlNode) : XmlNode :=
  root.withChildren (bqGo none root.childrenOf)

/-- The renaming applied by convert.article_title_tag once the first p
child qualifies: the p becomes title-group and its first child becomes
article-title. -/
def titleRename : XmlNode → XmlNode
  | .elem _ a tx ch tl =>
      .elem "title-group" a tx
        (match ch with
         | [] => []
         | c :: rest => (XmlNode.elem "article-title" c.attrsOf c.textOf
             c.childrenOf c.tailOf) :: rest) tl

/-- Does the first p child qualify for title promotion: Python element
truthiness demands at least one child, the leading text must be falsy, and
the first child must be tagged bold. -/
def titleCond (p : XmlNode) : Bool :=
  !p.childrenOf.isEmpty
    && (p.textOf == none || p.textOf == some "")
    && (match p.childrenOf with
        | [] => false
        | c :: _ => c.tagOf == "bold")

/-- convert.article_title_tag: find the first top-level child tagged p;
when it is truthy (has a child), has falsy leading text and its first
child is bold, rename it title-group and its first child article-title. -/
def article_title_tag (root : XmlNode) : XmlNode :=
  match root.childrenOf.findIdx? (fun c => c.tagOf == "p") with
  | none => root
  | some k =>
      let p := root.childrenOf.getD k (XmlNode.elem "" [] none [] none)
      if titleCond p then
        root.withChildren (root.childrenOf.set k (titleRename p))
      else root

/-- convert.front_stub_tag: when a top-level title-group exists, insert a
new front-stub element at index 1, append the title-group to it and remove
the title-group from the root. -/
def front_stub_tag (root : XmlNode) : XmlNode :=
  match root.childrenOf.findIdx? (fun c => c.tagOf == "title-group") with
  | none => root
  | some k =>
      let tg := root.childrenOf.getD k (XmlNode.elem "" [] none [] none)
      let fs := XmlNode.elem "front-stub" [] none [tg] none
      let ch1 := pyInsert 1 fs root.childrenOf
      root.withChildren (ch1.eraseIdx (if k == 0 then 0 else k + 1))

/-- Is the tag one the body pass leaves at the top level. -/
def keptTag (t : String) : Bool :=
  t == "body" || t == "front-stub"

/-- convert.body_tag: insert a new body element at index 1 when a
front-stub child exists, else at index 0, then move every top-level child
not tagged body or front-stub into it, preserving order. -/
def body_tag (root : XmlNode) : XmlNode :=
  let ch := root.childrenOf
  let idx := if ch.any (fun c => c.tagOf == "front-stub") then 1 else 0
  let moved := ch.filter (fun c => !keptTag c.tagOf)
  let newBody := XmlNode.elem "body" [] none moved none
  root.withChildren
    ((ch.take idx).filter (fun c => keptTag c.tagOf) ++ newBody ::
      (ch.drop idx).filter (fun c => keptTag c.tagOf))

/-- convert.html_to_xml: the rewrite passes in source order. -/
def html_to_xml (root : XmlNode) : XmlNode :=
  body_tag (front_stub_tag (article_title_tag (blockquote_tags (replace_tags root))))

/-! Markup repair (convert.repair) and the parse-retry control flow
(convert.html_string_to_element). The XML parser itself is the external
xml.etree collaborator, so it enters the model as a function parameter;
the textual repairs are modelled concretely. -/

/-- Error kinds raised by the embedded code, named after the Python
exceptions the source raises or catches. -/
inductive PyErr where
  | parseError
  | indexError
  | attributeError
  | typeError
  deriving DecidableEq, Repr

/-- Python str.replace: replace every non-overlapping occurrence of the
pattern, scanning left to right. Fueled; the fuel of one char per input
char always suffices since every step consumes at least one char. -/
def replaceGo (pat repl : List Char) : Nat → List Char → List Char
  | 0, cs => cs
  | _ + 1, [] => []
  | fuel + 1, c :: rest =>
      if pat ≠ [] ∧ pat.isPrefixOf (c :: rest) then
        repl ++ replaceGo pat repl fuel ((c :: rest).drop pat.length)
      else c :: replaceGo pat repl fuel rest

/-- Python str.replace on strings, for a non-empty pattern. -/
def pyReplace (s pat repl : String) : String :=
  ⟨replaceGo pat.data repl.data s.data.length s.data⟩

/-- All splittings of the list at an occurrence of the delimiter whose
prefix holds no newline, ordered by increasing prefix length: the
candidates a lazy dot-star quantifier followed by the delimiter tries, in
backtracking order. -/
def splitsNL (delim : List Char) : List Char → List (List Char × List Char)
  | [] => if delim.isPrefixOf ([] : List Char) then [([], [])] else []
  | c :: rest =>
      let here := if delim.isPrefixOf (c :: rest) then
          [(([] : List Char), (c :: rest).drop delim.length)] else []
      if c == '\n' then here
      else here ++ (splitsNL delim rest).map (fun pr => (c :: pr.1, pr.2))

/-- The close-tag pair the third group of the repair pattern ends with. -/
def closePair (a b : List Char) : List Char :=
  ['<', '/'] ++ a ++ ['>', '<', '/'] ++ b ++ ['>']

/-- Match the repair pattern for tags a and b at the head of the input:
an opening a tag, an opening b tag, then content closed by the a and b
close tags in that inverted order. Lazy groups are tried shortest first,
earlier groups first, as the re engine does. On success returns the
replacement (the two opening tags exchanged) and the unconsumed rest. -/
def matchPairAt (a b : List Char) (cs : List Char) : Option (List Char × List Char) :=
  if ('<' :: a).isPrefixOf cs then
    (splitsNL ('>' :: '<' :: b) (cs.drop (a.length + 1))).findSome? (fun p1 =>
      (splitsNL ['>'] p1.2).findSome? (fun p2 =>
        (splitsNL (closePair a b) p2.2).findSome? (fun p3 =>
          some (['<'] ++ b ++ p2.1 ++ ['>', '<'] ++ a ++ p1.1 ++ ['>'] ++ p3.1
              ++ closePair a b, p3.2))))
  else none

/-- re.sub for the repair pattern: scan left to right, replacing each
match and resuming after it, else advancing one char. Fueled; one unit of
fuel per char suffices since every step consumes at least one char. -/
def subPairGo (a b : List Char) : Nat → List Char → List Char
  | 0, cs => cs
  | _ + 1, [] => []
  | fuel + 1, c :: rest =>
      match matchPairAt a b (c :: rest) with
      | some (repl, r) => repl ++ subPairGo a b fuel r
      | none => c :: subPairGo a b fuel rest

/-- One inverted-close-order repair: rewrite every occurrence of an a tag
opening before a b tag that close in the inverted order. -/
def subPair (a b : String) (s : String) : String :=
  ⟨subPairGo a.data b.data s.data.length s.data⟩

/-- convert.repair: normalize bare br tags to self-closed form, then fix
the em-strong close order, then the strong-em close order. -/
def repair (s : String) : String :=
  subPair "strong" "em" (subPair "em" "strong" (pyReplace s "<br>" "<br/>"))

/-- convert.html_string_to_element: wrap the fragment in a synthetic root,
attempt a strict parse, and on a ParseError alone retry exactly once on
the repaired string. parseFn stands for the external ElementTree parser. -/
def html_string_to_element (parseFn : String → Except PyErr XmlNode)
    (s : String) : Except PyErr XmlNode :=
  match parseFn ("<root>" ++ s ++ "</root>") with
  | .ok r => .ok r
  | .error .parseError => parseFn (repair ("<root>" ++ s ++ "</root>"))
  | .error e => .error e

/-! Docmap extraction (docmaptools/parse.py). Parsed JSON values and the
code that walks them are modelled over a Python-value type; the dynamic
failures the code can raise (attribute, index and type errors) appear as
PyErr values in an Except monad. -/

/-- A parsed JSON value as the Python code sees it. -/
inductive PyVal where
  | none
  | bool (b : Bool)
  | num (n : Int)
  | str (s : String)
  | list (l : List PyVal)
  | dict (l : List (String × PyVal))

/-- First binding of a key in an assoc list. -/
def lookupKey (l : List (String × PyVal)) (k : String) : Option PyVal :=
  match l with
  | [] => Option.none
  | (k', v) :: rest => if k' == k then some v else lookupKey rest k

/-- Python d.get(key, default): on a dict, the binding or the default; on
any other value an AttributeError. -/
def pyGetD (v : PyVal) (k : String) (dflt : PyVal) : Except PyErr PyVal :=
  match v with
  | .dict l => .ok ((lookupKey l k).getD dflt)
  | _ => .error .attributeError

/-- Python d.get(key): default None. -/
def pyGet (v : PyVal) (k : String) : Except PyErr PyVal :=
  pyGetD v k .none

/-- Python d[i] subscription for the index 0 use in the source: lists
raise IndexError when out of range, strings yield the char, None and the
rest raise TypeError. -/
def pyIndex (v : PyVal) (i : Nat) : Except PyErr PyVal :=
  match v with
  | .list l =>
      match l.get? i with
      | some x => .ok x
      | Option.none => .error .indexError
  | .str s =>
      match s.data.get? i with
      | some c => .ok (.str c.toString)
      | Option.none => .error .indexError
  | _ => .error .typeError

/-- Python comparison of a value with a string literal: equal strings
compare true, every other value compares false. -/
def pyEqStr (v : PyVal) (s : String) : Bool :=
  match v with
  | .str t => t == s
  | _ => false

/-- Python dict assignment: overwrite the first binding in place, else
append the binding. Non-dicts cannot reach the assignment in the source. -/
def pySet (v : PyVal) (k : String) (x : PyVal) : PyVal :=
  match v with
  | .dict l => .dict (setKey l k x)
  | other => other
where
  setKey : List (String × PyVal) → String → PyVal → List (String × PyVal)
    | [], k, x => [(k, x)]
    | (k', v') :: rest, k, x =>
        if k' == k then (k, x) :: rest else (k', v') :: setKey rest k x

/-- The elements of a Python iterable for the for loops in the source;
the source only ever iterates JSON arrays, so other values are a
TypeError here. -/
def pyElems (v : PyVal) : Except PyErr (List PyVal) :=
  match v with
  | .list l => .ok l
  | _ => .error .typeError

/-- parse.docmap_steps. -/
def docmap_steps (d : PyVal) : Except PyErr PyVal :=
  pyGet d "steps"

/-- Python d.get(k) where the key is itself a runtime value: string keys
look up normally, unhashable keys raise, other scalars find nothing in a
string-keyed dict. -/
def pyGetKey (v : PyVal) (k : PyVal) : Except PyErr PyVal :=
  match v with
  | .dict l =>
      match k with
      | .str s => .ok ((lookupKey l s).getD .none)
      | .list _ => .error .typeError
      | .dict _ => .error .typeError
      | _ => .ok .none
  | _ => .error .attributeError

/-- parse.docmap_first_step: resolve the first-step index in the steps
mapping. -/
def docmap_first_step (d : PyVal) : Except PyErr PyVal := do
  let idx ← pyGet d "first-step"
  let steps ← docmap_steps d
  pyGetKey steps idx

/-- parse.step_actions. -/
def step_actions (step : PyVal) : Except PyErr PyVal :=
  pyGet step "actions"

/-- parse.action_outputs. -/
def action_outputs (action : PyVal) : Except PyErr PyVal :=
  pyGet action "outputs"

/-- One entry of the web-content list comprehension in
parse.output_content: the condition is evaluated first, and only entries
whose type compares equal to web-content contribute their url value,
defaulted to an empty dict. -/
def webContentEntry (c : PyVal) : Except PyErr (Option PyVal) := do
  let ty ← pyGet c "type"
  if pyEqStr ty "web-content" then
    let u ← pyGetD c "url" (.dict [])
    pure (some u)
  else
    pure Option.none

/-- parse.output_content: an ordered dict of the output type, the
published timestamp, and the url of the first web-content entry of the
content list, None when there is no web-content entry. -/
def output_content (output : PyVal) : Except PyErr PyVal := do
  let t ← pyGet output "type"
  let p ← pyGet output "published"
  let cs ← pyGetD output "content" (.list [])
  let l ← pyElems cs
  let webs ← l.mapM webContentEntry
  let webContent := (webs.filterMap id).head?.getD .none
  pure (.dict [("type", t), ("published", p), ("web-content", webContent)])

/-- parse.action_content: the content of the first output of the action. -/
def action_content (action : PyVal) : Except PyErr PyVal := do
  let outs ← action_outputs action
  let first ← pyIndex outs 0
  output_content first

/-- parse.docmap_content: one content item per action of the first step,
in action order. -/
def docmap_content (d : PyVal) : Except PyErr PyVal := do
  let step ← docmap_first_step d
  let actions ← step_actions step
  let acts ← pyElems actions
  let items ← acts.mapM action_content
  pure (.list items)

/-- Python truthiness of a JSON value: None, False, zero, and empty
strings, lists and dicts are falsy. -/
def pyTruthy (v : PyVal) : Bool :=
  match v with
  | .none => false
  | .bool b => b
  | .num n => n != 0
  | .str s => s != ""
  | .list l => !l.isEmpty
  | .dict l => !l.isEmpty

/-- One loop iteration of parse.transform_docmap_content: when the item
holds truthy html, convert it; a ParseError from the conversion is caught
and leaves the item without an xml key, any other error is re-raised.
conv stands for convert.convert_html_string. -/
def transform_item (conv : PyVal → Except PyErr PyVal) (item : PyVal) :
    Except PyErr PyVal := do
  let html ← pyGet item "html"
  if pyTruthy html then
    match conv html with
    | .ok x => .ok (pySet item "xml" x)
    | .error .parseError => .ok item
    | .error e => .error e
  else
    .ok item

/-- parse.transform_docmap_content over the content list. -/
def transform_docmap_content (conv : PyVal → Except PyErr PyVal)
    (content : PyVal) : Except PyErr PyVal := do
  let items ← pyElems content
  let items' ← items.mapM (transform_item conv)
  pure (.list items')

/-! The docmap step walker. The walk function and its CycleError are
declared by the specification but the function itself is not present in
the source tree, so it is modelled from the specification here. -/

/-- A docmap step as the walker sees it: only the link to the next step
matters to the traversal. -/
structure WalkStep where
  nextStepId : Option String
  deriving DecidableEq, Repr

/-- A docmap as the walker sees it: the id of the first step and the
string-keyed step mapping. -/
structure SpecDocmap where
  firstStepId : String
  steps : List (String × WalkStep)
  deriving DecidableEq, Repr

/-- The failures of the walker named by the specification. -/
inductive WalkErr where
  | missingStep
  | cycle
  deriving DecidableEq, Repr

/-- The step ids of a docmap, in declaration order. -/
def stepIds (doc : SpecDocmap) : List String :=
  doc.steps.map Prod.fst

theorem mem_of_lookup_eq_some {l : List (String × WalkStep)} {k : String}
    {s : WalkStep} (h : l.lookup k = some s) : k ∈ l.map Prod.fst := by
  induction l with
  | nil => simp [List.lookup] at h
  | cons hd tl ih =>
    rw [List.lookup] at h
    by_cases hk : k = hd.1
    · simp only [List.map_cons, List.mem_cons]
      exact Or.inl hk
    · have hbeq : (k == hd.1) = false := by simpa using hk
      rw [hbeq] at h
      simp only [List.map_cons, List.mem_cons]
      exact Or.inr (ih h)

/-- The ids the walk may still visit without failing: the step ids not
yet in the visited list. -/
def freshCount (doc : SpecDocmap) (visited : List String) : Nat :=
  ((stepIds doc).filter (fun k => !(visited.contains k))).length

/-- Visiting a resolvable unvisited id strictly shrinks the set of ids
the walk may still visit: the pigeonhole fact behind termination. -/
theorem freshCount_lt (doc : SpecDocmap) (visited : List String) (id : String)
    (s : WalkStep) (hv : id ∉ visited) (hl : doc.steps.lookup id = some s) :
    freshCount doc (id :: visited) < freshCount doc visited := by
  have hmem : id ∈ stepIds doc := mem_of_lookup_eq_some hl
  have hsub : ((stepIds doc).filter (fun k => !((id :: visited).contains k))).Sublist
      ((stepIds doc).filter (fun k => !(visited.contains k))) := by
    apply List.monotone_filter_right
    intro a ha
    simp only [List.contains_cons, Bool.not_eq_true', Bool.or_eq_false_iff] at ha ⊢
    exact ha.2
  have hlen := hsub.length_le
  rcases Nat.lt_or_ge (freshCount doc (id :: visited)) (freshCount doc visited) with h | h
  · exact h
  · exfalso
    have heq : ((stepIds doc).filter (fun k => !((id :: visited).contains k))) =
        ((stepIds doc).filter (fun k => !(visited.contains k))) :=
      hsub.eq_of_length_le (Nat.le_antisymm hlen h ▸ Nat.le_refl _)
    have hid : id ∈ (stepIds doc).filter (fun k => !(visited.contains k)) := by
      simp only [List.mem_filter, Bool.not_eq_true']
      exact ⟨hmem, by simpa using hv⟩
    rw [← heq] at hid
    simp at hid

/-- Modelled from the spec: the body of walk(doc). Visit the step with
the given id, failing with CycleError when the id was already visited;
the sequence ends when the next-step link is absent or does not resolve
(next_step returns None in both cases). The recursion is paced by fuel;
walk supplies more fuel than there are steps, and the freshCount lemmas
prove that amount is never exhausted, so the zero-fuel branch is
unreachable. -/
def walkGo (doc : SpecDocmap) : Nat → List String → String →
    Except WalkErr (List String)
  | 0, _, _ => .error .cycle
  | fuel + 1, visited, id =>
      if id ∈ visited then .error .cycle
      else
        match doc.steps.lookup id with
        | Option.none => .ok []
        | some s =>
            match s.nextStepId with
            | Option.none => .ok [id]
            | some nid => (walkGo doc fuel (id :: visited) nid).map (fun l => id :: l)

/-- Modelled from the spec: walk(doc) resolves the first step, failing
with MissingStepError when it does not resolve, then follows next-step
links until None, failing with CycleError when a step id recurs. Returns
the sequence of visited step ids. -/
def walk (doc : SpecDocmap) : Except WalkErr (List String) :=
  match doc.steps.lookup doc.firstStepId with
  | Option.none => .error .missingStep
  | some _ => walkGo doc (doc.steps.length + 1) [] doc.firstStepId

/-- Are consecutive ids of the list linked by next-step links in the
docmap, with every listed id resolvable. -/
def isChain (doc : SpecDocmap) : List String → Bool
  | [] => true
  | [a] => (doc.steps.lookup a).isSome
  | a :: b :: rest =>
      (match doc.steps.lookup a with
       | some s => s.nextStepId == some b
       | Option.none => false) && isChain doc (b :: rest)

/-- Does the last id of the list name a step at which the walk
terminates: its next-step link is absent or does not resolve. -/
def chainEnds (doc : SpecDocmap) : List String → Bool
  | [] => false
  | [a] =>
      (match doc.steps.lookup a with
       | some s =>
           match s.nextStepId with
           | Option.none => true
           | some nid => (doc.steps.lookup nid).isNone
       | Option.none => false)
  | _ :: b :: rest => chainEnds doc (b :: rest)

/-! Claims C1 to C4: counterexamples on concrete trees. -/

/-- A childless paragraph element used as generic content. -/
def pChild : XmlNode :=
  .elem "p" [] (some "x") [] none

/-- A top-level disp-quote already present before the blockquote pass. -/
def preDq : XmlNode :=
  .elem "disp-quote" [] none [pChild] none

/-- A top-level blockquote with one paragraph child. -/
def bqElem : XmlNode :=
  .elem "blockquote" [] none [pChild] none

/-- A parsed tree whose top-level children are a disp-quote followed by
two consecutive blockquotes. -/
def c1input : XmlNode :=
  .elem "root" [] none [preDq, bqElem, bqElem] none

/-- C1 counterexample: on a tree whose run of two top-level blockquotes
is preceded by a disp-quote sibling, the blockquote pass leaves a single
top-level child and produces no disp-quote with content-type
editor-comment at all: the blockquotes children are merged into the
pre-existing sibling, which is therefore not left untouched, and no new
disp-quote takes their place. -/
theorem c1_counterexample :
    (blockquote_tags c1input).childrenOf.map XmlNode.tagOf = ["disp-quote"]
      ∧ ((blockquote_tags c1input).childrenOf.filter
          (fun c => getAttr c "content-type" == some "editor-comment")).length = 0
      ∧ (blockquote_tags c1input).childrenOf.map
          (fun c => c.childrenOf.length) = [3] := by
  decide

/-- A tree already in the target shape: the root has the single child
body, here holding one paragraph. -/
def c2input : XmlNode :=
  .elem "root" [] none [.elem "body" [] none [pChild] none] none

/-- C2 counterexample: running the four rewrite passes on a tree whose
only top-level child is a body element is not a no-op: the body pass
unconditionally inserts a second, empty body element in front of the
existing one. -/
theorem c2_counterexample :
    c2input.childrenOf.map XmlNode.tagOf = ["body"]
      ∧ (html_to_xml c2input).childrenOf.map XmlNode.tagOf = ["body", "body"] := by
  decide

/-- A parsed tree whose top-level title-group is not the first child. -/
def c3input : XmlNode :=
  .elem "root" [] none
    [.elem "div" [] none [] none, .elem "title-group" [] none [] none] none

/-- C3 counterexample: when the top-level title-group is not the first
child, the structural-wrapping pass inserts the front-stub at index 1,
which after the moves leaves the body before the front-stub: the claimed
final shape of a leading front-stub followed by the body is violated. -/
theorem c3_counterexample :
    (body_tag (front_stub_tag c3input)).childrenOf.map XmlNode.tagOf
      = ["body", "front-stub"] := by
  decide

/-- A parsed tree whose first top-level child is not a p element while a
qualifying p element appears later. -/
def c4input : XmlNode :=
  .elem "root" [] none
    [.elem "div" [] none [] none,
     .elem "p" [] none [.elem "bold" [] (some "T") [] none] none] none

/-- C4 counterexample: the title-promotion pass does not inspect only the
first top-level child: a qualifying p element appearing later among the
top-level children is still renamed, so the tree is not left unchanged. -/
theorem c4_counterexample :
    (article_title_tag c4input).childrenOf.map XmlNode.tagOf
      = ["div", "title-group"] := by
  decide

/-! Claim C5: the parse-repair-retry control flow. -/

/-- C5: for every input string, parsing first attempts a strict parse of
the root-wrapped fragment and returns its result untouched on success;
only on a parse failure is the repaired string parsed in exactly one
retry, whose error, if any, propagates; a failure other than a parse
error propagates at once with no repair and no retry. -/
theorem c5_parse_retry (parseFn : String → Except PyErr XmlNode) (s : String) :
    (∀ r, parseFn ("<root>" ++ s ++ "</root>") = .ok r →
      html_string_to_element parseFn s = .ok r)
    ∧ (parseFn ("<root>" ++ s ++ "</root>") = .error .parseError →
      html_string_to_element parseFn s
        = parseFn (repair ("<root>" ++ s ++ "</root>")))
    ∧ (∀ e, parseFn ("<root>" ++ s ++ "</root>") = .error .parseError →
        parseFn (repair ("<root>" ++ s ++ "</root>")) = .error e →
        html_string_to_element parseFn s = .error e)
    ∧ (∀ e, e ≠ PyErr.parseError →
        parseFn ("<root>" ++ s ++ "</root>") = .error e →
        html_string_to_element parseFn s = .error e) := by
  refine ⟨?_, ?_, ?_, ?_⟩
  · intro r h
    simp [html_string_to_element, h]
  · intro h
    simp [html_string_to_element, h]
  · intro e h h2
    simp [html_string_to_element, h, h2]
  · intro e he h
    cases e with
    | parseError => exact absurd rfl he
    | indexError => simp [html_string_to_element, h]
    | attributeError => simp [html_string_to_element, h]
    | typeError => simp [html_string_to_element, h]

/-- A concrete stand-in for the external parser: rejects exactly the
string holding a bare br tag and accepts its repaired form. -/
def c5parseFn : String → Except PyErr XmlNode := fun t =>
  if t = "<root>a<br></root>" then .error .parseError
  else if t = "<root>a<br/></root>" then
    .ok (.elem "root" [] (some "a") [.elem "br" [] none [] none] none)
  else .error .typeError

/-- C5 witness: on a concrete parser and input, the strict parse fails,
the repair fixes the bare br tag, and the conversion returns the result
of the single retry on the repaired string. -/
theorem c5_witness :
    c5parseFn ("<root>" ++ "a<br>" ++ "</root>") = .error .parseError
      ∧ repair ("<root>" ++ "a<br>" ++ "</root>") = "<root>a<br/></root>"
      ∧ html_string_to_element c5parseFn "a<br>"
          = c5parseFn (repair ("<root>" ++ "a<br>" ++ "</root>")) := by
  refine ⟨rfl, by decide, (c5_parse_retry c5parseFn "a<br>").2.1 rfl⟩

/-! Claim C7: failure isolation in transform_docmap_content. -/

/-- The per-item effect of the transform loop as a total function: items
with truthy html receive the conversion result under the xml key; items
whose conversion fails keep their keys untouched. -/
def transform_item_total (conv : PyVal → Except PyErr PyVal) (item : PyVal) : PyVal :=
  match item with
  | .dict d =>
      match conv ((lookupKey d "html").getD .none) with
      | .ok x =>
          if pyTruthy ((lookupKey d "html").getD .none) then pySet (.dict d) "xml" x
          else .dict d
      | .error _ => .dict d
  | other => other

theorem mapM_ok_of_forall {α β : Type} (f : α → Except PyErr β) (g : α → β)
    (l : List α) (h : ∀ v ∈ l, f v = .ok (g v)) : l.mapM f = .ok (l.map g) := by
  induction l with
  | nil => rfl
  | cons hd tl ih =>
    rw [List.mapM_cons, h hd (by simp), ih (fun v hv => h v (by simp [hv]))]
    rfl

theorem transform_item_eq_total (conv : PyVal → Except PyErr PyVal)
    (d : List (String × PyVal))
    (hconv : ∀ v e, conv v = .error e → e = PyErr.parseError) :
    transform_item conv (.dict d) = .ok (transform_item_total conv (.dict d)) := by
  simp only [transform_item, transform_item_total, pyGet, pyGetD, bind, Except.bind]
  rcases hc : conv ((lookupKey d "html").getD .none) with e | x
  · have he := hconv _ _ hc
    subst he
    by_cases ht : pyTruthy ((lookupKey d "html").getD .none)
    · simp [ht, hc]
    · simp [ht, hc]
  · by_cases ht : pyTruthy ((lookupKey d "html").getD .none)
    · simp [ht, hc]
    · simp [ht, hc]

/-- C7: for every batch of content items and every converter whose
failures are parse errors, the transformed batch succeeds as a whole, has
exactly one result item per input item in order (no item dropped), each
item is transformed independently of its siblings, and an item whose
conversion fails keeps its keys, the xml key left unset. -/
theorem c7_failure_isolation (conv : PyVal → Except PyErr PyVal) (l : List PyVal)
    (hd : ∀ v ∈ l, ∃ d, v = PyVal.dict d)
    (hconv : ∀ v e, conv v = .error e → e = PyErr.parseError) :
    transform_docmap_content conv (.list l)
        = .ok (.list (l.map (transform_item_total conv)))
    ∧ (l.map (transform_item_total conv)).length = l.length
    ∧ (∀ d, conv ((lookupKey d "html").getD .none) = .error .parseError →
        transform_item_total conv (.dict d) = .dict d) := by
  refine ⟨?_, by simp, ?_⟩
  · simp only [transform_docmap_content, pyElems, bind, Except.bind]
    rw [mapM_ok_of_forall (transform_item conv) (transform_item_total conv) l ?_]
    · rfl
    · intro v hv
      obtain ⟨d, rfl⟩ := hd v hv
      exact transform_item_eq_total conv d hconv
  · intro d hc
    simp [transform_item_total, hc]

/-- A concrete converter failing with a parse error on one html value. -/
def c7conv : PyVal → Except PyErr PyVal := fun v =>
  if pyEqStr v "<p>Unmatched tag" then .error .parseError
  else .ok (.str "converted")

/-- The C7 batch: a failing item followed by a valid one. -/
def c7batch : List PyVal :=
  [.dict [("html", .str "<p>Unmatched tag")],
   .dict [("html", .str "<p>ok</p>")]]

/-- C7 witness: in a concrete batch whose first item fails conversion
with a parse error, the call succeeds, both items are returned, the
failing item is unchanged with no xml key and the valid one carries its
converted xml. -/
theorem c7_witness :
    (∀ v ∈ c7batch, ∃ d, v = PyVal.dict d)
    ∧ transform_docmap_content c7conv (.list c7batch)
        = .ok (.list (c7batch.map (transform_item_total c7conv)))
    ∧ c7batch.map (transform_item_total c7conv)
        = [.dict [("html", .str "<p>Unmatched tag")],
           .dict [("html", .str "<p>ok</p>"), ("xml", .str "converted")]] := by
  refine ⟨?_, ?_, ?_⟩
  · intro v hv
    simp only [c7batch, List.mem_cons, List.not_mem_nil, or_false] at hv
    rcases hv with rfl | rfl
    · exact ⟨_, rfl⟩
    · exact ⟨_, rfl⟩
  · exact (c7_failure_isolation c7conv c7batch
      (by
        intro v hv
        simp only [c7batch, List.mem_cons, List.not_mem_nil, or_false] at hv
        rcases hv with rfl | rfl
        · exact ⟨_, rfl⟩
        · exact ⟨_, rfl⟩)
      (by
        intro v e he
        simp only [c7conv] at he
        by_cases hv : pyEqStr v "<p>Unmatched tag"
        · rw [if_pos hv] at he
          exact ((Except.error.injEq _ _).mp he).symm
        · rw [if_neg hv] at he
          exact absurd he (by simp))).1
  · rfl

/-! Claims C6, C8 and C10: content extraction from the first step. -/

/-- The value one content entry contributes to the web-content list
comprehension, as a total function on dict entries. -/
def webEntryTotal (c : PyVal) : Option PyVal :=
  match c with
  | .dict cd =>
      if pyEqStr ((lookupKey cd "type").getD .none) "web-content"
      then some ((lookupKey cd "url").getD (.dict []))
      else Option.none
  | _ => Option.none

/-- The web-content value output_content computes from a content list:
the first contribution of the comprehension, None when there is none. -/
def firstWeb (cs : List PyVal) : PyVal :=
  ((cs.map webEntryTotal).filterMap id).head?.getD .none

/-- The elements of a JSON array value, defaulting to the empty list. -/
def asList (v : PyVal) : List PyVal :=
  match v with
  | .list l => l
  | _ => []

theorem webContentEntry_dict (cd : List (String × PyVal)) :
    webContentEntry (.dict cd) = .ok (webEntryTotal (.dict cd)) := by
  simp only [webContentEntry, webEntryTotal, pyGet, pyGetD, bind, Except.bind]
  by_cases h : pyEqStr ((lookupKey cd "type").getD .none) "web-content"
  · simp [h, pure, Except.pure]
  · simp [h, pure, Except.pure]

/-- output_content on a dict output whose content list holds only dicts:
the item carries the type, the published timestamp, and the first
web-content contribution. -/
theorem output_content_dict (od : List (String × PyVal)) (cs : List PyVal)
    (hc : (lookupKey od "content").getD (.list []) = .list cs)
    (hall : ∀ c ∈ cs, ∃ cd, c = PyVal.dict cd) :
    output_content (.dict od) = .ok (.dict
      [("type", (lookupKey od "type").getD .none),
       ("published", (lookupKey od "published").getD .none),
       ("web-content", firstWeb cs)]) := by
  simp only [output_content, pyGet, pyGetD, bind, Except.bind, hc, pyElems]
  rw [mapM_ok_of_forall webContentEntry webEntryTotal cs ?_]
  · rfl
  · intro c hcm
    obtain ⟨cd, rfl⟩ := hall c hcm
    exact webContentEntry_dict cd

/-- C10: on an output whose content list has, as its first entry of type
web-content, a dict lacking the url key, output_content sets the
web-content field of the item to an empty mapping, not to None, whatever
later entries hold; in particular a later web-content entry that does
carry a url is shadowed. -/
theorem c10_missing_url (od ed : List (String × PyVal)) (pre post : List PyVal)
    (hc : (lookupKey od "content").getD (.list []) = .list (pre ++ .dict ed :: post))
    (hpre : ∀ c ∈ pre, ∃ cd, c = PyVal.dict cd
      ∧ pyEqStr ((lookupKey cd "type").getD .none) "web-content" = false)
    (hty : pyEqStr ((lookupKey ed "type").getD .none) "web-content" = true)
    (hurl : lookupKey ed "url" = Option.none)
    (hpost : ∀ c ∈ post, ∃ cd, c = PyVal.dict cd) :
    output_content (.dict od) = .ok (.dict
      [("type", (lookupKey od "type").getD .none),
       ("published", (lookupKey od "published").getD .none),
       ("web-content", .dict [])]) := by
  rw [output_content_dict od (pre ++ .dict ed :: post) hc ?_]
  · have hfw : firstWeb (pre ++ .dict ed :: post) = .dict [] := by
      have hnil : (pre.map webEntryTotal).filterMap id = [] := by
        rw [List.filterMap_eq_nil_iff]
        intro a ha
        obtain ⟨c, hcm, rfl⟩ := List.mem_map.mp ha
        obtain ⟨cd, rfl, hw⟩ := hpre c hcm
        simp [webEntryTotal, hw]
      have hed : webEntryTotal (.dict ed) = some (.dict []) := by
        simp [webEntryTotal, hty, hurl]
      simp [firstWeb, List.filterMap_append, hnil, hed]
    rw [hfw]
  · intro c hcm
    rcases List.mem_append.mp hcm with h | h
    · obtain ⟨cd, rfl, _⟩ := hpre c h
      exact ⟨cd, rfl⟩
    · rcases List.mem_cons.mp h with rfl | h2
      · exact ⟨ed, rfl⟩
      · exact hpost c h2

/-- The C10 output: its first web-content entry lacks a url while a later
web-content entry carries one. -/
def c10output : List (String × PyVal) :=
  [("type", .str "review-article"),
   ("published", .str "2022-02-15"),
   ("content", .list
     [.dict [("type", .str "web-content")],
      .dict [("type", .str "web-content"), ("url", .str "https://example.org/x")]])]

/-- C10 witness: on a concrete output whose first web-content entry lacks
a url, the item holds an empty mapping under web-content, and the later
url-carrying web-content entry is shadowed. -/
theorem c10_witness :
    (lookupKey c10output "content").getD (.list []) = .list
      ([] ++ PyVal.dict [("type", .str "web-content")] ::
        [PyVal.dict [("type", .str "web-content"), ("url", .str "https://example.org/x")]])
    ∧ output_content (.dict c10output) = .ok (.dict
      [("type", .str "review-article"),
       ("published", .str "2022-02-15"),
       ("web-content", .dict [])]) := by
  refine ⟨rfl, ?_⟩
  exact c10_missing_url c10output [("type", .str "web-content")] []
    [PyVal.dict [("type", .str "web-content"), ("url", .str "https://example.org/x")]]
    rfl (by intro c hcm; exact absurd hcm (List.not_mem_nil c)) rfl rfl
    (by
      intro c hcm
      rcases List.mem_cons.mp hcm with rfl | h2
      · exact ⟨_, rfl⟩
      · exact absurd h2 (List.not_mem_nil c))

/-- Well-formed content entry: a dict which, when typed web-content,
carries a url key. -/
def wfContentEntry (c : PyVal) : Bool :=
  match c with
  | .dict cd =>
      !pyEqStr ((lookupKey cd "type").getD .none) "web-content"
        || (lookupKey cd "url").isSome
  | _ => false

/-- Well-formed output: a dict whose content key, when present, is a list
of well-formed entries. -/
def wfOutput (o : PyVal) : Bool :=
  match o with
  | .dict od =>
      match lookupKey od "content" with
      | Option.none => true
      | some (.list cs) => cs.all wfContentEntry
      | some _ => false
  | _ => false

/-- Well-formed action with at least one output: a dict whose outputs key
is a non-empty list with a well-formed first output. -/
def wfAction (a : PyVal) : Bool :=
  match a with
  | .dict ad =>
      match lookupKey ad "outputs" with
      | some (.list (o :: _)) => wfOutput o
      | _ => false
  | _ => false

/-- Stated from the claim for comparison with the code: the url of the
first content entry of type web-content, None when there is no such
entry. -/
def firstWebUrlSpec (cs : List PyVal) : PyVal :=
  match cs.find? (fun c =>
    match c with
    | .dict cd => pyEqStr ((lookupKey cd "type").getD .none) "web-content"
    | _ => false) with
  | some (.dict cd) => (lookupKey cd "url").getD .none
  | _ => .none

/-- Stated from the claim for comparison with the code: the content item
of one action carries its first output type, the published timestamp,
and the url of the first web-content entry. -/
def content_item_spec (a : PyVal) : PyVal :=
  match a with
  | .dict ad =>
      match lookupKey ad "outputs" with
      | some (.list (PyVal.dict od :: _)) =>
          .dict [("type", (lookupKey od "type").getD .none),
            ("published", (lookupKey od "published").getD .none),
            ("web-content",
              firstWebUrlSpec (asList ((lookupKey od "content").getD (.list []))))]
      | _ => .none
  | _ => .none

/-- On lists of well-formed entries the code value of the web-content
field coincides with the claim description. -/
theorem firstWeb_eq_spec (cs : List PyVal) (h : cs.all wfContentEntry = true) :
    firstWeb cs = firstWebUrlSpec cs := by
  induction cs with
  | nil => rfl
  | cons c rest ih =>
    rw [List.all_cons, Bool.and_eq_true] at h
    obtain ⟨hc, hrest⟩ := h
    match c, hc with
    | .dict cd, hc =>
      by_cases hw : pyEqStr ((lookupKey cd "type").getD .none) "web-content"
      · have hurl : (lookupKey cd "url").isSome = true := by
          simp only [wfContentEntry, hw, Bool.not_true, Bool.false_or] at hc
          exact hc
        obtain ⟨u, hu⟩ := Option.isSome_iff_exists.mp hurl
        simp [firstWeb, firstWebUrlSpec, webEntryTotal, hw, hu]
      · have hw2 : pyEqStr ((lookupKey cd "type").getD .none) "web-content" = false := by
          simpa using hw
        have hnone : webEntryTotal (.dict cd) = Option.none := by
          simp [webEntryTotal, hw2]
        have hstep : firstWeb (PyVal.dict cd :: rest) = firstWeb rest := by
          simp [firstWeb, hnone]
        rw [hstep, ih hrest]
        simp only [firstWebUrlSpec]
        rw [List.find?_cons_of_neg]
        simp [hw2]

/-- A well-formed action with a first output yields exactly the content
item the claim describes. -/
theorem action_content_wf (a : PyVal) (h : wfAction a = true) :
    action_content a = .ok (content_item_spec a) := by
  match a, h with
  | .dict ad, h =>
    simp only [wfAction] at h
    match hout : lookupKey ad "outputs", h with
    | some (.list (o :: rest)), h =>
      have h : wfOutput o = true := h
      match o, h with
      | .dict od, h =>
        have hstep : action_content (.dict ad) = output_content (.dict od) := by
          simp only [action_content, action_outputs, pyGet, pyGetD, hout, bind,
            Except.bind, Option.getD_some]
          rfl
        have hcs : ∃ cs, (lookupKey od "content").getD (.list []) = .list cs
            ∧ cs.all wfContentEntry = true := by
          simp only [wfOutput] at h
          match hc : lookupKey od "content", h with
          | Option.none, h => exact ⟨[], rfl, rfl⟩
          | some (.list cs), h => exact ⟨cs, rfl, h⟩
        obtain ⟨cs, hcs1, hcs2⟩ := hcs
        rw [hstep, output_content_dict od cs hcs1 ?_]
        · rw [content_item_spec]
          simp only [hout, hcs1, asList]
          rw [firstWeb_eq_spec cs hcs2]
        · intro c hcm
          have hwf : wfContentEntry c = true := by
            rw [List.all_eq_true] at hcs2
            exact hcs2 c hcm
          match c, hwf with
          | .dict cd, _ => exact ⟨cd, rfl⟩

/-- C6: for every docmap whose first step resolves and whose actions all
carry at least one well-formed output, docmap_content returns exactly one
content item per action of the first step, in action order, each item
carrying the first output type, its published timestamp, and the url of
the first web-content entry of the first output, None when the output has
no web-content entry. -/
theorem c6_docmap_content (dd sd stepd : List (String × PyVal)) (fid : String)
    (acts : List PyVal)
    (h1 : lookupKey dd "first-step" = some (.str fid))
    (h2 : lookupKey dd "steps" = some (.dict sd))
    (h3 : lookupKey sd fid = some (.dict stepd))
    (h4 : lookupKey stepd "actions" = some (.list acts))
    (h5 : acts.all wfAction = true) :
    docmap_content (.dict dd) = .ok (.list (acts.map content_item_spec))
    ∧ (acts.map content_item_spec).length = acts.length := by
  refine ⟨?_, by simp⟩
  simp only [docmap_content, docmap_first_step, docmap_steps, step_actions, pyGet,
    pyGetD, bind, Except.bind, h1, h2, pyGetKey, h3, h4, pyElems, Option.getD_some]
  rw [mapM_ok_of_forall action_content content_item_spec acts ?_]
  · rfl
  · intro a ha
    apply action_content_wf
    rw [List.all_eq_true] at h5
    exact h5 a ha

/-- One concrete action with one output holding one web-content url. -/
def mkAction (ty pub u : String) : PyVal :=
  .dict [("outputs", .list
    [.dict [("type", .str ty), ("published", .str pub),
      ("content", .list [.dict [("type", .str "web-content"), ("url", .str u)]])]])]

/-- Five concrete actions for the single first step; the last one has an
output without any web-content entry. -/
def c6acts : List PyVal :=
  [mkAction "review-article" "2022-02-15T09:10:01+00:00" "https://example.org/r1",
   mkAction "review-article" "2022-02-15T09:10:02+00:00" "https://example.org/r2",
   mkAction "review-article" "2022-02-15T09:10:03+00:00" "https://example.org/r3",
   mkAction "evaluation-summary" "2022-02-15T09:10:04+00:00" "https://example.org/s1",
   .dict [("outputs", .list [.dict [("type", .str "reply"), ("content", .list [])]])]]

/-- The inner dict of the single step. -/
def c6step : List (String × PyVal) :=
  [("actions", .list c6acts)]

/-- The steps mapping of the concrete docmap. -/
def c6steps : List (String × PyVal) :=
  [("_:b0", .dict c6step)]

/-- The concrete single-step docmap with five actions. -/
def c6docmap : List (String × PyVal) :=
  [("first-step", .str "_:b0"), ("steps", .dict c6steps)]

/-- C6 witness: on a concrete single-step docmap with five actions,
docmap_content yields five items in action order, each carrying the first
output type, published timestamp and first web-content url, with None for
the output lacking a web-content entry. -/
theorem c6_witness :
    docmap_content (.dict c6docmap) = .ok (.list (c6acts.map content_item_spec))
    ∧ (c6acts.map content_item_spec).length = 5
    ∧ c6acts.map content_item_spec =
      [.dict [("type", .str "review-article"),
        ("published", .str "2022-02-15T09:10:01+00:00"),
        ("web-content", .str "https://example.org/r1")],
       .dict [("type", .str "review-article"),
        ("published", .str "2022-02-15T09:10:02+00:00"),
        ("web-content", .str "https://example.org/r2")],
       .dict [("type", .str "review-article"),
        ("published", .str "2022-02-15T09:10:03+00:00"),
        ("web-content", .str "https://example.org/r3")],
       .dict [("type", .str "evaluation-summary"),
        ("published", .str "2022-02-15T09:10:04+00:00"),
        ("web-content", .str "https://example.org/s1")],
       .dict [("type", .str "reply"), ("published", .none),
        ("web-content", .none)]] := by
  refine ⟨(c6_docmap_content c6docmap c6steps c6step "_:b0" c6acts
    rfl rfl rfl rfl rfl).1, rfl, rfl⟩

/-! Claim C8: an action with zero outputs fails docmap_content. -/

/-- Well-formed action for the failure claim: a dict whose outputs key is
a list, empty or with a well-formed first output. -/
def wfActionMaybeEmpty (a : PyVal) : Bool :=
  match a with
  | .dict ad =>
      match lookupKey ad "outputs" with
      | some (.list []) => true
      | some (.list (o :: _)) => wfOutput o
      | _ => false
  | _ => false

/-- Does the action carry an empty outputs list. -/
def hasEmptyOutputs (a : PyVal) : Bool :=
  match a with
  | .dict ad =>
      match lookupKey ad "outputs" with
      | some (.list []) => true
      | _ => false
  | _ => false

theorem action_content_empty (a : PyVal) (h : hasEmptyOutputs a = true) :
    action_content a = .error .indexError := by
  match a, h with
  | .dict ad, h =>
    simp only [hasEmptyOutputs] at h
    match hout : lookupKey ad "outputs", h with
    | some (.list []), h =>
      simp only [action_content, action_outputs, pyGet, pyGetD, hout, bind,
        Except.bind, Option.getD_some]
      rfl

theorem mapM_action_content_error (acts : List PyVal)
    (hwf : acts.all wfActionMaybeEmpty = true)
    (hany : acts.any hasEmptyOutputs = true) :
    acts.mapM action_content = .error .indexError := by
  induction acts with
  | nil => simp at hany
  | cons a rest ih =>
    rw [List.all_cons, Bool.and_eq_true] at hwf
    obtain ⟨hwa, hwrest⟩ := hwf
    by_cases he : hasEmptyOutputs a = true
    · rw [List.mapM_cons, action_content_empty a he]
      rfl
    · have hne : wfAction a = true := by
        match a, hwa, he with
        | .dict ad, hwa, he =>
          simp only [wfActionMaybeEmpty] at hwa
          simp only [hasEmptyOutputs] at he
          simp only [wfAction]
          match hout : lookupKey ad "outputs", hwa, he with
          | some (.list []), hwa, he => simp at he
          | some (.list (o :: rest2)), hwa, he =>
              have : wfOutput o = true := hwa
              exact this
      have hrest : rest.any hasEmptyOutputs = true := by
        rw [List.any_cons] at hany
        rcases Bool.or_eq_true_iff.mp hany with h1 | h1
        · exact absurd h1 he
        · exact h1
      rw [List.mapM_cons, action_content_wf a hne, ih hwrest hrest]
      rfl

/-- C8: for every docmap whose first step resolves and whose actions are
well-formed dicts with list-valued outputs, if some action has zero
outputs then docmap_content fails with the index error raised on
subscripting the empty outputs list (the failure the specification names
MalformedDocmapError) instead of returning content. -/
theorem c8_empty_outputs (dd sd stepd : List (String × PyVal)) (fid : String)
    (acts : List PyVal)
    (h1 : lookupKey dd "first-step" = some (.str fid))
    (h2 : lookupKey dd "steps" = some (.dict sd))
    (h3 : lookupKey sd fid = some (.dict stepd))
    (h4 : lookupKey stepd "actions" = some (.list acts))
    (h5 : acts.all wfActionMaybeEmpty = true)
    (h6 : acts.any hasEmptyOutputs = true) :
    docmap_content (.dict dd) = .error .indexError := by
  simp only [docmap_content, docmap_first_step, docmap_steps, step_actions, pyGet,
    pyGetD, bind, Except.bind, h1, h2, pyGetKey, h3, h4, pyElems, Option.getD_some]
  rw [mapM_action_content_error acts h5 h6]

/-- The C8 actions: one good action and one with zero outputs. -/
def c8acts : List PyVal :=
  [mkAction "review-article" "2022-02-15T09:10:01+00:00" "https://example.org/r1",
   .dict [("outputs", .list [])]]

/-- The inner dict of the single C8 step. -/
def c8step : List (String × PyVal) :=
  [("actions", .list c8acts)]

/-- The steps mapping of the C8 docmap. -/
def c8steps : List (String × PyVal) :=
  [("_:b0", .dict c8step)]

/-- The concrete docmap whose second action has zero outputs. -/
def c8docmap : List (String × PyVal) :=
  [("first-step", .str "_:b0"), ("steps", .dict c8steps)]

/-- C8 witness: on a concrete docmap whose second action has an empty
outputs list, docmap_content fails with the index error. -/
theorem c8_witness :
    c8acts.any hasEmptyOutputs = true
    ∧ docmap_content (.dict c8docmap) = .error .indexError := by
  exact ⟨rfl, c8_empty_outputs c8docmap c8steps c8step "_:b0" c8acts
    rfl rfl rfl rfl rfl rfl⟩

/-! Claim C9: the walk over the step chain. -/

theorem walkGo_spec (doc : SpecDocmap) (fuel : Nat) (visited : List String)
    (id : String) (hfuel : freshCount doc visited < fuel) :
    walkGo doc fuel visited id = .error .cycle
    ∨ (∃ ids, walkGo doc fuel visited id = .ok ids
        ∧ (∀ x ∈ ids, x ∉ visited) ∧ ids.Nodup
        ∧ ((ids = [] ∧ doc.steps.lookup id = Option.none)
           ∨ (ids.head? = some id ∧ isChain doc ids = true
              ∧ chainEnds doc ids = true))) := by
  induction fuel generalizing visited id with
  | zero => exact absurd hfuel (Nat.not_lt_zero _)
  | succ fuel ih =>
    by_cases hv : id ∈ visited
    · left
      rw [walkGo, if_pos hv]
    · match hl : doc.steps.lookup id with
      | Option.none =>
        right
        refine ⟨[], ?_, by simp, by simp, Or.inl ⟨rfl, ?_⟩⟩
        · rw [walkGo, if_neg hv]
          simp only [hl]
        · first
          | exact hl
          | rfl
      | some s =>
        match hn : s.nextStepId with
        | Option.none =>
          right
          refine ⟨[id], ?_, ?_, by simp, Or.inr ⟨rfl, ?_, ?_⟩⟩
          · rw [walkGo, if_neg hv]
            simp only [hl, hn]
          · intro x hx
            rw [List.mem_singleton] at hx
            subst hx
            exact hv
          · simp [isChain, hl]
          · simp [chainEnds, hl, hn]
        | some nid =>
          have hstep : walkGo doc (fuel + 1) visited id
              = (walkGo doc fuel (id :: visited) nid).map (fun l => id :: l) := by
            rw [walkGo, if_neg hv]
            simp only [hl, hn]
          have hfuel2 : freshCount doc (id :: visited) < fuel := by
            have h1 := freshCount_lt doc visited id s hv hl
            omega
          rcases ih (id :: visited) nid hfuel2 with hcyc | ⟨ids, hok, hnv, hnd, hrest⟩
          · left
            rw [hstep, hcyc]
            rfl
          · right
            refine ⟨id :: ids, ?_, ?_, ?_, Or.inr ⟨rfl, ?_, ?_⟩⟩
            · rw [hstep, hok]
              rfl
            · intro x hx
              rcases List.mem_cons.mp hx with rfl | hx2
              · exact hv
              · intro hxv
                exact hnv x hx2 (List.mem_cons_of_mem id hxv)
            · rw [List.nodup_cons]
              refine ⟨?_, hnd⟩
              intro hidm
              exact hnv id hidm (List.mem_cons_self id visited)
            · rcases hrest with ⟨rfl, hln⟩ | ⟨hhd, hch, hce⟩
              · simp [isChain, hl]
              · match ids, hhd with
                | b :: rest, hhd =>
                  simp only [List.head?_cons, Option.some.injEq] at hhd
                  subst hhd
                  simp [isChain, hl, hn, hch]
            · rcases hrest with ⟨rfl, hln⟩ | ⟨hhd, hch, hce⟩
              · simp [chainEnds, hl, hn, hln]
              · match ids, hhd with
                | b :: rest, hhd => exact hce

/-- C9 (spec-modelled): for every docmap whose first step resolves,
walking the chain from the first step returns a finite duplicate-free
sequence of step ids linked by next-step links that starts at the first
step and terminates at a step whose next-step is absent or does not
resolve, or it fails with CycleError; in particular the traversal never
loops forever. -/
theorem c9_walk (doc : SpecDocmap)
    (h : (doc.steps.lookup doc.firstStepId).isSome = true) :
    (∃ ids, walk doc = .ok ids
      ∧ ids.head? = some doc.firstStepId ∧ ids.Nodup
      ∧ isChain doc ids = true ∧ chainEnds doc ids = true)
    ∨ walk doc = .error .cycle := by
  obtain ⟨s, hs⟩ := Option.isSome_iff_exists.mp h
  have hw : walk doc = walkGo doc (doc.steps.length + 1) [] doc.firstStepId := by
    rw [walk, hs]
  have hfuel : freshCount doc [] < doc.steps.length + 1 := by
    have hle : ((stepIds doc).filter (fun k =>
        !(([] : List String).contains k))).length ≤ (stepIds doc).length :=
      List.length_filter_le _ _
    have hlen : (stepIds doc).length = doc.steps.length := by
      simp [stepIds]
    simp only [freshCount]
    omega
  rcases walkGo_spec doc (doc.steps.length + 1) [] doc.firstStepId hfuel
    with hcyc | ⟨ids, hok, _, hnd, hrest⟩
  · right
    rw [hw, hcyc]
  · left
    rcases hrest with ⟨rfl, hln⟩ | ⟨hhd, hch, hce⟩
    · rw [hln] at hs
      exact absurd hs (by simp)
    · exact ⟨ids, hw ▸ hok, hhd, hnd, hch, hce⟩

/-- A concrete cyclic docmap: the second step points back to the first. -/
def c9cyclic : SpecDocmap :=
  ⟨"s1", [("s1", ⟨some "s2"⟩), ("s2", ⟨some "s1"⟩)]⟩

/-- C9 witness: on a concrete docmap whose second step points back to the
first, the first step resolves and the walk either returns a terminating
duplicate-free chain or fails with CycleError; evaluating the walk shows
the CycleError branch is the one taken. -/
theorem c9_witness :
    (c9cyclic.steps.lookup c9cyclic.firstStepId).isSome = true
    ∧ ((∃ ids, walk c9cyclic = .ok ids
        ∧ ids.head? = some c9cyclic.firstStepId ∧ ids.Nodup
        ∧ isChain c9cyclic ids = true ∧ chainEnds c9cyclic ids = true)
       ∨ walk c9cyclic = .error .cycle)
    ∧ walk c9cyclic = .error .cycle := by
  exact ⟨rfl, c9_walk c9cyclic rfl, rfl⟩

/-! Claim C1, amended: a run of consecutive blockquotes merges into one
disp-quote when no sibling is already a disp-quote. -/

/-- The disp-quote a blockquote becomes when its previous surviving
sibling is not a disp-quote. -/
def bq2dq (e : XmlNode) : XmlNode :=
  .elem "disp-quote" (setAttr e.attrsOf "content-type" "editor-comment")
    e.textOf e.childrenOf e.tailOf

@[simp] theorem tagOf_mk (t : String) (a : List (String × String))
    (tx : Option String) (ch : List XmlNode) (tl : Option String) :
    (XmlNode.elem t a tx ch tl).tagOf = t := rfl

@[simp] theorem childrenOf_mk (t : String) (a : List (String × String))
    (tx : Option String) (ch : List XmlNode) (tl : Option String) :
    (XmlNode.elem t a tx ch tl).childrenOf = ch := rfl

@[simp] theorem tagOf_withChildren (n : XmlNode) (l : List XmlNode) :
    (n.withChildren l).tagOf = n.tagOf := by cases n; rfl

@[simp] theorem childrenOf_withChildren (n : XmlNode) (l : List XmlNode) :
    (n.withChildren l).childrenOf = l := by cases n; rfl

theorem withChildren_withChildren (n : XmlNode) (l l' : List XmlNode) :
    (n.withChildren l).withChildren l' = n.withChildren l' := by cases n; rfl

theorem withChildren_self (n : XmlNode) : n.withChildren n.childrenOf = n := by
  cases n; rfl

/-- Once only non-blockquote children remain, the held previous sibling
is emitted and the rest passes through untouched. -/
theorem bqGo_no_bq (h : XmlNode) (xs : List XmlNode)
    (hxs : ∀ c ∈ xs, ¬ c.tagOf = "blockquote") : bqGo (some h) xs = h :: xs := by
  induction xs generalizing h with
  | nil => rfl
  | cons x rest ih =>
    have hx : (x.tagOf == "blockquote") = false := by
      simpa using hxs x (List.mem_cons_self x rest)
    rw [bqGo, hx]
    simp only [Bool.false_eq_true, if_false]
    rw [ih x (fun c hc => hxs c (List.mem_cons_of_mem x hc))]

/-- While the held previous sibling is a disp-quote, a run of blockquotes
is merged into it child list by child list. -/
theorem bqGo_merge (bl : List XmlNode) (d : XmlNode) (post : List XmlNode)
    (hbl : ∀ c ∈ bl, c.tagOf = "blockquote") (hd : d.tagOf = "disp-quote") :
    bqGo (some d) (bl ++ post)
      = bqGo (some (d.withChildren
          (d.childrenOf ++ (bl.map XmlNode.childrenOf).flatten))) post := by
  induction bl generalizing d with
  | nil => rw [List.nil_append, List.map_nil, List.flatten_nil, List.append_nil,
      withChildren_self]
  | cons b bl' ih =>
    have hb : (b.tagOf == "blockquote") = true := by
      simpa using hbl b (List.mem_cons_self b bl')
    have hdq : (d.tagOf == "disp-quote") = true := by simpa using hd
    rw [List.cons_append, bqGo, hb]
    simp only [if_true, hdq]
    rw [ih (d.withChildren (d.childrenOf ++ b.childrenOf))
      (fun c hc => hbl c (List.mem_cons_of_mem b hc)) (by simpa using hd)]
    rw [withChildren_withChildren, childrenOf_withChildren, List.map_cons,
      List.flatten_cons, List.append_assoc]

/-- Leading siblings that are neither blockquotes nor disp-quotes pass
through unchanged and hand the run over with a non-disp-quote held
sibling. -/
theorem bqGo_skip (pre : List XmlNode) (h : XmlNode) (b0 : XmlNode)
    (rest : List XmlNode) (hh : ¬ h.tagOf = "disp-quote")
    (hpre : ∀ c ∈ pre, ¬ c.tagOf = "blockquote" ∧ ¬ c.tagOf = "disp-quote")
    (hb : b0.tagOf = "blockquote") :
    bqGo (some h) (pre ++ b0 :: rest)
      = (h :: pre) ++ bqGo (some (bq2dq b0)) rest := by
  induction pre generalizing h with
  | nil =>
    have hb' : (b0.tagOf == "blockquote") = true := by simpa using hb
    have hh' : (h.tagOf == "disp-quote") = false := by simpa using hh
    rw [List.nil_append, bqGo, hb']
    simp only [if_true, hh', Bool.false_eq_true, if_false]
    rfl
  | cons p pre' ih =>
    have hp := hpre p (List.mem_cons_self p pre')
    have hp1 : (p.tagOf == "blockquote") = false := by simpa using hp.1
    rw [List.cons_append, bqGo, hp1]
    simp only [Bool.false_eq_true, if_false]
    rw [ih p hp.2 (fun c hc => hpre c (List.mem_cons_of_mem p hc))]
    rfl

/-- C1, amended: when the N consecutive top-level blockquotes (N at least
2) are the only blockquote children and no top-level sibling is already a
disp-quote, the blockquote pass replaces the run by exactly one
disp-quote with content-type editor-comment whose children are the
concatenation, in order, of all N blockquotes children, and every other
top-level sibling is left untouched. The original claim fails when a
sibling is already a disp-quote, as the counterexample shows. -/
theorem c1_amended (root : XmlNode) (pre bqs post : List XmlNode) (b0 : XmlNode)
    (brest : List XmlNode)
    (hch : root.childrenOf = pre ++ bqs ++ post)
    (hcons : bqs = b0 :: brest)
    (hN : 2 ≤ bqs.length)
    (hbqs : ∀ c ∈ bqs, c.tagOf = "blockquote")
    (hside : ∀ c ∈ pre ++ post, ¬ c.tagOf = "blockquote" ∧ ¬ c.tagOf = "disp-quote") :
    blockquote_tags root = root.withChildren (pre ++
      XmlNode.elem "disp-quote" (setAttr b0.attrsOf "content-type" "editor-comment")
        b0.textOf ((bqs.map XmlNode.childrenOf).flatten) b0.tailOf :: post) := by
  subst hcons
  have hb0 : b0.tagOf = "blockquote" := hbqs b0 (List.mem_cons_self b0 brest)
  have hbrest : ∀ c ∈ brest, c.tagOf = "blockquote" :=
    fun c hc => hbqs c (List.mem_cons_of_mem b0 hc)
  have hpost : ∀ c ∈ post, ¬ c.tagOf = "blockquote" :=
    fun c hc => (hside c (List.mem_append_right pre hc)).1
  have hpre : ∀ c ∈ pre, ¬ c.tagOf = "blockquote" ∧ ¬ c.tagOf = "disp-quote" :=
    fun c hc => hside c (List.mem_append_left post hc)
  have hmid : bqGo (some (bq2dq b0)) (brest ++ post)
      = XmlNode.elem "disp-quote" (setAttr b0.attrsOf "content-type" "editor-comment")
          b0.textOf (((b0 :: brest).map XmlNode.childrenOf).flatten) b0.tailOf :: post := by
    rw [bqGo_merge brest (bq2dq b0) post hbrest rfl]
    rw [bqGo_no_bq _ post hpost]
    rw [List.map_cons, List.flatten_cons]
    rfl
  rw [blockquote_tags, hch]
  cases pre with
  | nil =>
    have hb0' : (b0.tagOf == "blockquote") = true := by simpa using hb0
    rw [List.nil_append, List.cons_append, bqGo, hb0']
    simp only [if_true]
    rw [show (XmlNode.elem "disp-quote"
        (setAttr b0.attrsOf "content-type" "editor-comment")
        b0.textOf b0.childrenOf b0.tailOf) = bq2dq b0 from rfl, hmid]
    rfl
  | cons p pre' =>
    have hp := hpre p (List.mem_cons_self p pre')
    have hp1 : (p.tagOf == "blockquote") = false := by simpa using hp.1
    rw [List.cons_append, List.cons_append, bqGo, hp1]
    simp only [Bool.false_eq_true, if_false]
    rw [List.append_assoc, List.cons_append]
    rw [bqGo_skip pre' p b0 (brest ++ post) hp.2
      (fun c hc => hpre c (List.mem_cons_of_mem p hc)) hb0]
    rw [hmid]

/-- The C1 witness tree: a paragraph, three consecutive blockquotes, then
a div, with no pre-existing disp-quote. -/
def c1okInput : XmlNode :=
  .elem "root" [] none
    [.elem "p" [] (some "intro") [] none,
     .elem "blockquote" [] none [.elem "p" [] (some "a") [] none] none,
     .elem "blockquote" [] none [.elem "p" [] (some "b") [] none] none,
     .elem "blockquote" [] none
       [.elem "p" [] (some "c") [] none, .elem "p" [] (some "d") [] none] none,
     .elem "div" [] none [] none] none

/-- C1 witness: on a concrete tree with three consecutive blockquotes and
no pre-existing disp-quote, the pass yields one editor-comment disp-quote
holding the four children in order, with the siblings untouched. -/
theorem c1_witness :
    blockquote_tags c1okInput = c1okInput.withChildren
      [.elem "p" [] (some "intro") [] none,
       .elem "disp-quote" [("content-type", "editor-comment")] none
         [.elem "p" [] (some "a") [] none,
          .elem "p" [] (some "b") [] none,
          .elem "p" [] (some "c") [] none,
          .elem "p" [] (some "d") [] none] none,
       .elem "div" [] none [] none] := by
  have h := c1_amended c1okInput
    [.elem "p" [] (some "intro") [] none]
    [.elem "blockquote" [] none [.elem "p" [] (some "a") [] none] none,
     .elem "blockquote" [] none [.elem "p" [] (some "b") [] none] none,
     .elem "blockquote" [] none
       [.elem "p" [] (some "c") [] none, .elem "p" [] (some "d") [] none] none]
    [.elem "div" [] none [] none]
    (.elem "blockquote" [] none [.elem "p" [] (some "a") [] none] none)
    [.elem "blockquote" [] none [.elem "p" [] (some "b") [] none] none,
     .elem "blockquote" [] none
       [.elem "p" [] (some "c") [] none, .elem "p" [] (some "d") [] none] none]
    rfl rfl (by simp)
    (by
      intro c hc
      simp only [List.mem_cons, List.not_mem_nil, or_false] at hc
      rcases hc with rfl | rfl | rfl <;> rfl)
    (by
      intro c hc
      simp only [List.cons_append, List.nil_append, List.mem_cons,
        List.not_mem_nil, or_false] at hc
      rcases hc with rfl | rfl <;> exact ⟨by simp, by simp⟩)
  rw [h]
  rfl

/-! Claim C4, amended: title promotion acts on the first p child wherever
it sits among the top-level children. -/

theorem findIdx?_none_aux {α : Type} (p : α → Bool) (l : List α) (i : Nat)
    (h : ∀ c ∈ l, p c = false) : List.findIdx? p l i = Option.none := by
  induction l generalizing i with
  | nil => rfl
  | cons x rest ih =>
    rw [List.findIdx?, h x (List.mem_cons_self x rest)]
    simp only [Bool.false_eq_true, if_false]
    exact ih (i + 1) (fun c hc => h c (List.mem_cons_of_mem x hc))

theorem findIdx?_none_of_all {α : Type} (p : α → Bool) (l : List α)
    (h : ∀ c ∈ l, p c = false) : l.findIdx? p = Option.none :=
  findIdx?_none_aux p l 0 h

theorem findIdx?_append_aux {α : Type} (p : α → Bool) (a : List α) (x : α)
    (b : List α) (i : Nat) (ha : ∀ c ∈ a, p c = false) (hx : p x = true) :
    List.findIdx? p (a ++ x :: b) i = some (a.length + i) := by
  induction a generalizing i with
  | nil =>
    rw [List.nil_append, List.findIdx?, hx]
    simp
  | cons c rest ih =>
    rw [List.cons_append, List.findIdx?, ha c (List.mem_cons_self c rest)]
    simp only [Bool.false_eq_true, if_false]
    rw [ih (i + 1) (fun q hq => ha q (List.mem_cons_of_mem c hq))]
    simp only [List.length_cons, Option.some.injEq]
    omega

theorem findIdx?_append_first {α : Type} (p : α → Bool) (a : List α) (x : α)
    (b : List α) (ha : ∀ c ∈ a, p c = false) (hx : p x = true) :
    (a ++ x :: b).findIdx? p = some a.length := by
  have h := findIdx?_append_aux p a x b 0 ha hx
  simpa using h

theorem getD_append_length {α : Type} (a : List α) (x : α) (b : List α) (d : α) :
    (a ++ x :: b).getD a.length d = x := by
  induction a with
  | nil => rfl
  | cons c rest ih => simpa using ih

theorem set_append_length {α : Type} (a : List α) (x y : α) (b : List α) :
    (a ++ x :: b).set a.length y = a ++ y :: b := by
  induction a with
  | nil => rfl
  | cons c rest ih =>
    rw [List.cons_append, List.length_cons, List.set_cons_succ, ih,
      List.cons_append]

/-- C4, amended: the title-promotion pass inspects the first top-level
child tagged p, wherever it sits among the top-level children: when the
tree has no p child it is unchanged; otherwise the first p child is
renamed title-group with its first child renamed article-title exactly
when it has at least one element child, no leading text, and its first
child is bold, and the tree is unchanged otherwise. The original claim
that only the first top-level child is inspected fails, as the
counterexample shows. -/
theorem c4_amended (root : XmlNode) :
    ((∀ c ∈ root.childrenOf, ¬ c.tagOf = "p") → article_title_tag root = root)
    ∧ (∀ a pp b, root.childrenOf = a ++ pp :: b →
        (∀ c ∈ a, ¬ c.tagOf = "p") → pp.tagOf = "p" →
        article_title_tag root = root.withChildren
          (a ++ (if titleCond pp then titleRename pp else pp) :: b)) := by
  constructor
  · intro h
    rw [article_title_tag, findIdx?_none_of_all (fun c => c.tagOf == "p")
      root.childrenOf (fun c hc => by simpa using h c hc)]
  · intro a pp b hch ha hp
    rw [article_title_tag, hch, findIdx?_append_first (fun c => c.tagOf == "p")
      a pp b (fun c hc => by simpa using ha c hc) (by simpa using hp)]
    simp only [getD_append_length]
    by_cases hcond : titleCond pp
    · rw [if_pos hcond, if_pos hcond, set_append_length]
    · rw [if_neg hcond, if_neg hcond, ← hch, withChildren_self]

/-- C4 witness: on the concrete tree whose second top-level child is the
qualifying p element, the pass renames it and its bold child. -/
theorem c4_witness :
    article_title_tag c4input = c4input.withChildren
      [.elem "div" [] none [] none,
       .elem "title-group" [] none
         [.elem "article-title" [] (some "T") [] none] none] := by
  have h := (c4_amended c4input).2 [.elem "div" [] none [] none]
    (.elem "p" [] none [.elem "bold" [] (some "T") [] none] none) [] rfl
    (by
      intro c hc
      simp only [List.mem_cons, List.not_mem_nil, or_false] at hc
      subst hc
      simp) rfl
  rw [h]
  rfl

/-! Claim C3, amended: the structural-wrapping pass produces the claimed
shape when the title-group, if any, is the first child and no top-level
child is already a body or front-stub. -/

/-- C3, amended: on a tree none of whose top-level children is already a
body or front-stub, the wrapping pass yields a front-stub holding the
title-group followed by a body holding all remaining former children in
order when the first child is a title-group, and a single body holding
all former children when no title-group child exists. When a title-group
exists but is not the first child the code inserts the front-stub at
index 1 and the final shape puts the body before the front-stub, as the
counterexample shows. -/
theorem c3_amended (root : XmlNode)
    (hkept : ∀ c ∈ root.childrenOf, keptTag c.tagOf = false) :
    (∀ tg rest, root.childrenOf = tg :: rest → tg.tagOf = "title-group" →
       body_tag (front_stub_tag root) = root.withChildren
         [.elem "front-stub" [] none [tg] none,
          .elem "body" [] none rest none])
    ∧ ((∀ c ∈ root.childrenOf, ¬ c.tagOf = "title-group") →
       body_tag (front_stub_tag root) = root.withChildren
         [.elem "body" [] none root.childrenOf none]) := by
  constructor
  · intro tg rest hch htg
    have hrest : ∀ c ∈ rest, keptTag c.tagOf = false := by
      intro c hc
      exact hkept c (hch ▸ List.mem_cons_of_mem tg hc)
    have hfront : front_stub_tag root = root.withChildren
        (XmlNode.elem "front-stub" [] none [tg] none :: rest) := by
      rw [front_stub_tag, hch]
      have hidx : (tg :: rest).findIdx? (fun c => c.tagOf == "title-group")
          = some 0 := by
        have h := findIdx?_append_first (fun c => c.tagOf == "title-group")
          [] tg rest (by intro c hc; exact absurd hc (List.not_mem_nil c))
          (by simpa using htg)
        simpa using h
      rw [hidx]
      rfl
    rw [hfront, body_tag]
    simp only [childrenOf_withChildren]
    have hany : (XmlNode.elem "front-stub" [] none [tg] none :: rest).any
        (fun c => c.tagOf == "front-stub") = true := by
      simp
    rw [hany]
    simp only [if_true]
    rw [withChildren_withChildren]
    have hmoved : (XmlNode.elem "front-stub" [] none [tg] none :: rest).filter
        (fun c => !keptTag c.tagOf) = rest := by
      rw [List.filter_cons_of_neg (by simp [keptTag])]
      rw [List.filter_eq_self]
      intro c hc
      simp [hrest c hc]
    have hkeptrest : rest.filter (fun c => keptTag c.tagOf) = [] := by
      rw [List.filter_eq_nil_iff]
      intro c hc
      simp [hrest c hc]
    simp only [List.take_succ_cons, List.take_zero, List.drop_succ_cons,
      List.drop_zero, hmoved]
    rw [List.filter_cons_of_pos (by rfl), hkeptrest]
    rfl
  · intro hno
    have hfront : front_stub_tag root = root := by
      rw [front_stub_tag, findIdx?_none_of_all (fun c => c.tagOf == "title-group")
        root.childrenOf (fun c hc => by simpa using hno c hc)]
    rw [hfront, body_tag]
    have hany : root.childrenOf.any (fun c => c.tagOf == "front-stub") = false := by
      rw [List.any_eq_false]
      intro c hc
      have h := hkept c hc
      simp only [keptTag, Bool.or_eq_false_iff] at h
      simp [h.2]
    rw [hany]
    simp only [Bool.false_eq_true, if_false, List.take_zero, List.drop_zero,
      List.nil_append]
    have hmoved : root.childrenOf.filter (fun c => !keptTag c.tagOf)
        = root.childrenOf := by
      rw [List.filter_eq_self]
      intro c hc
      simp [hkept c hc]
    have hkeptn : root.childrenOf.filter (fun c => keptTag c.tagOf) = [] := by
      rw [List.filter_eq_nil_iff]
      intro c hc
      simp [hkept c hc]
    rw [hmoved, hkeptn]
    simp

/-- The C3 witness tree: a title-group first, then two content children. -/
def c3okInput : XmlNode :=
  .elem "root" [] none
    [.elem "title-group" [] none [.elem "article-title" [] (some "T") [] none] none,
     .elem "p" [] (some "one") [] none,
     .elem "div" [] none [] none] none

/-- C3 witness: on a concrete tree whose first child is the title-group,
the wrapping pass yields the front-stub holding it followed by a body
holding the remaining children in order. -/
theorem c3_witness :
    body_tag (front_stub_tag c3okInput) = c3okInput.withChildren
      [.elem "front-stub" [] none
         [.elem "title-group" [] none
           [.elem "article-title" [] (some "T") [] none] none] none,
       .elem "body" [] none
         [.elem "p" [] (some "one") [] none,
          .elem "div" [] none [] none] none] := by
  have h := (c3_amended c3okInput
    (by
      intro c hc
      simp only [c3okInput, childrenOf_mk, List.mem_cons, List.not_mem_nil,
        or_false] at hc
      rcases hc with rfl | rfl | rfl <;> rfl)).1
    (.elem "title-group" [] none
      [.elem "article-title" [] (some "T") [] none] none)
    [.elem "p" [] (some "one") [] none, .elem "div" [] none [] none]
    rfl rfl
  rw [h]

/-! Claim C2, amended: the passes on an already body-wrapped tree. -/

/-- The source-vocabulary tags the leaf-substitution pass rewrites. -/
def srcTags : List String := ["em", "strong", "a", "img", "li", "ol", "ul"]

mutual

/-- No element of the subtree carries a source-vocabulary tag. -/
def cleanNode : XmlNode → Bool
  | .elem t _ _ ch _ => !(srcTags.contains t) && cleanList ch

def cleanList : List XmlNode → Bool
  | [] => true
  | c :: rest => cleanNode c && cleanList rest

end

theorem cleanNode_parts (t : String) (a : List (String × String))
    (tx : Option String) (ch : List XmlNode) (tl : Option String)
    (h : cleanNode (.elem t a tx ch tl) = true) :
    srcTags.contains t = false ∧ cleanList ch = true := by
  rw [cleanNode, Bool.and_eq_true] at h
  exact ⟨by simpa using h.1, h.2⟩

theorem cleanList_parts (c : XmlNode) (rest : List XmlNode)
    (h : cleanList (c :: rest) = true) :
    cleanNode c = true ∧ cleanList rest = true := by
  rw [cleanList, Bool.and_eq_true] at h
  exact h

theorem tag_ne_of_clean (t : String) (a : List (String × String))
    (tx : Option String) (ch : List XmlNode) (tl : Option String)
    (h : cleanNode (.elem t a tx ch tl) = true) (s : String)
    (hs : s ∈ srcTags) : (t == s) = false := by
  have hc := (cleanNode_parts t a tx ch tl h).1
  by_cases he : t = s
  · subst he
    have h2 : srcTags.contains t = true := List.elem_eq_true_of_mem hs
    rw [h2] at hc
    cases hc
  · simpa using he

mutual

theorem renameTagNode_clean (f t : String) (hf : f ∈ srcTags) :
    ∀ n, cleanNode n = true → renameTagNode f t n = n
  | .elem tg a tx ch tl, h => by
    rw [renameTagNode, tag_ne_of_clean tg a tx ch tl h f hf]
    simp only [Bool.false_eq_true, if_false]
    rw [renameTagList_clean f t hf ch (cleanNode_parts tg a tx ch tl h).2]

theorem renameTagList_clean (f t : String) (hf : f ∈ srcTags) :
    ∀ l, cleanList l = true → renameTagList f t l = l
  | [], _ => rfl
  | c :: rest, h => by
    rw [renameTagList, renameTagNode_clean f t hf c (cleanList_parts c rest h).1,
      renameTagList_clean f t hf rest (cleanList_parts c rest h).2]

end

mutual

theorem aNode_clean : ∀ n, cleanNode n = true → aNode n = n
  | .elem tg a tx ch tl, h => by
    rw [aNode, tag_ne_of_clean tg a tx ch tl h "a" (by simp [srcTags])]
    simp only [Bool.false_eq_true, if_false]
    rw [aList_clean ch (cleanNode_parts tg a tx ch tl h).2]

theorem aList_clean : ∀ l, cleanList l = true → aList l = l
  | [], _ => rfl
  | c :: rest, h => by
    rw [aList, aNode_clean c (cleanList_parts c rest h).1,
      aList_clean rest (cleanList_parts c rest h).2]

end

theorem no_img_child_of_clean (ch : List XmlNode) (h : cleanList ch = true) :
    ch.any (fun c => c.tagOf == "img") = false := by
  induction ch with
  | nil => rfl
  | cons c rest ih =>
    obtain ⟨hc, hrest⟩ := cleanList_parts c rest h
    rw [List.any_cons, ih hrest, Bool.or_false]
    match c, hc with
    | .elem tg a tx ch2 tl, hc =>
      exact tag_ne_of_clean tg a tx ch2 tl hc "img" (by simp [srcTags])

mutual

theorem imgNode_clean : ∀ n, cleanNode n = true → imgNode n = n
  | .elem tg a tx ch tl, h => by
    rw [imgNode]
    have hch := (cleanNode_parts tg a tx ch tl h).2
    rw [imgList_clean ch hch]
    rw [no_img_child_of_clean ch hch]
    simp only [Bool.false_eq_true, if_false]

theorem imgList_clean : ∀ l, cleanList l = true → imgList l = l
  | [], _ => rfl
  | c :: rest, h => by
    rw [imgList, imgNode_clean c (cleanList_parts c rest h).1,
      imgList_clean rest (cleanList_parts c rest h).2]

end

mutual

theorem listNode_clean (f lt : String) (hf : f ∈ srcTags) :
    ∀ n, cleanNode n = true → listNode f lt n = n
  | .elem tg a tx ch tl, h => by
    rw [listNode, tag_ne_of_clean tg a tx ch tl h f hf]
    simp only [Bool.false_eq_true, if_false]
    rw [listList_clean f lt hf ch (cleanNode_parts tg a tx ch tl h).2]

theorem listList_clean (f lt : String) (hf : f ∈ srcTags) :
    ∀ l, cleanList l = true → listList f lt l = l
  | [], _ => rfl
  | c :: rest, h => by
    rw [listList, listNode_clean f lt hf c (cleanList_parts c rest h).1,
      listList_clean f lt hf rest (cleanList_parts c rest h).2]

end

/-- The leaf-substitution pass leaves a tree unchanged when every child
subtree is clean of source-vocabulary tags and of img children. -/
theorem replace_tags_clean (rt : String) (ra : List (String × String))
    (rtx : Option String) (ch : List XmlNode) (rtl : Option String)
    (hch : cleanList ch = true)
    (hrt : srcTags.contains rt = false) :
    replace_tags (.elem rt ra rtx ch rtl) = .elem rt ra rtx ch rtl := by
  have hclean : cleanNode (.elem rt ra rtx ch rtl) = true := by
    rw [cleanNode, hrt]
    simpa using hch
  rw [replace_tags]
  simp only [XmlNode.withChildren, XmlNode.childrenOf]
  rw [renameTagList_clean "em" "italic" (by simp [srcTags]) ch hch]
  rw [renameTagList_clean "strong" "bold" (by simp [srcTags]) ch hch]
  rw [aList_clean ch hch]
  rw [imgNode_clean _ hclean]
  simp only [XmlNode.childrenOf]
  rw [renameTagList_clean "li" "list-item" (by simp [srcTags]) ch hch]
  rw [listList_clean "ol" "order" (by simp [srcTags]) ch hch]
  rw [listList_clean "ul" "bullet" (by simp [srcTags]) ch hch]

/-- C2, amended: on a tree whose only top-level child is a body element
with a subtree clean of source-vocabulary tags, running the four rewrite
passes is not a no-op: it returns the tree with one new empty body
element inserted before the existing body and everything else unchanged.
The original no-op claim fails even on the empty body, as the
counterexample shows. -/
theorem c2_amended (rt : String) (ra : List (String × String))
    (rtx : Option String) (rtl : Option String) (b : XmlNode)
    (hb : b.tagOf = "body") (hclean : cleanNode b = true)
    (hroot : srcTags.contains rt = false) :
    html_to_xml (.elem rt ra rtx [b] rtl)
      = .elem rt ra rtx [.elem "body" [] none [] none, b] rtl := by
  rw [html_to_xml]
  rw [replace_tags_clean rt ra rtx [b] rtl (by rw [cleanList, hclean]; rfl) hroot]
  have hbq : blockquote_tags (.elem rt ra rtx [b] rtl) = .elem rt ra rtx [b] rtl := by
    rw [blockquote_tags]
    simp only [XmlNode.childrenOf]
    have hnb : ∀ c ∈ [b], ¬ c.tagOf = "blockquote" := by
      intro c hc
      rw [List.mem_singleton] at hc
      subst hc
      rw [hb]
      simp
    rw [show bqGo none [b] = [b] from by
      rw [bqGo]
      have : (b.tagOf == "blockquote") = false := by rw [hb]; rfl
      rw [this]
      rfl]
    rfl
  rw [hbq]
  have hat : article_title_tag (.elem rt ra rtx [b] rtl) = .elem rt ra rtx [b] rtl := by
    apply (c4_amended _).1
    intro c hc
    simp only [XmlNode.childrenOf, List.mem_singleton] at hc
    subst hc
    rw [hb]
    simp
  rw [hat]
  have hkept1 : ∀ c ∈ (XmlNode.elem rt ra rtx [b] rtl).childrenOf,
      ¬ c.tagOf = "title-group" := by
    intro c hc
    simp only [XmlNode.childrenOf, List.mem_singleton] at hc
    subst hc
    rw [hb]
    simp
  have hfs : front_stub_tag (.elem rt ra rtx [b] rtl) = .elem rt ra rtx [b] rtl := by
    rw [front_stub_tag, findIdx?_none_of_all _ _
      (fun c hc => by simpa using hkept1 c hc)]
  rw [hfs, body_tag]
  simp only [XmlNode.childrenOf]
  have hanyb : ([b].any (fun c => c.tagOf == "front-stub")) = false := by
    rw [List.any_cons, List.any_nil]
    rw [show (b.tagOf == "front-stub") = false from by rw [hb]; rfl]
    rfl
  simp only [hanyb, Bool.false_eq_true, if_false, List.take_zero, List.drop_zero]
  rw [show List.filter (fun c => !keptTag c.tagOf) [b] = [] from by
    rw [List.filter_cons_of_neg (by rw [keptTag, hb]; simp), List.filter_nil]]
  rw [show List.filter (fun c => keptTag c.tagOf) [b] = [b] from by
    rw [List.filter_cons_of_pos (by rw [keptTag, hb]; simp), List.filter_nil]]
  rfl

/-- The C2 witness: a root already holding a single body with clean
content. -/
def c2okInput : XmlNode :=
  .elem "root" [] none
    [.elem "body" [] none
      [.elem "p" [] (some "kept") [.elem "italic" [] (some "x") [] none] none]
      none] none

/-- C2 witness: on a concrete body-wrapped tree with clean content, the
four passes return the same tree with one new empty body prepended. -/
theorem c2_witness :
    html_to_xml c2okInput = .elem "root" [] none
      [.elem "body" [] none [] none,
       .elem "body" [] none
         [.elem "p" [] (some "kept") [.elem "italic" [] (some "x") [] none] none]
         none] none := by
  exact c2_amended "root" [] none none
    (.elem "body" [] none
      [.elem "p" [] (some "kept") [.elem "italic" [] (some "x") [] none] none]
      none)
    rfl (by decide) (by decide)

end Docmaptools
